import Mathlib

/-
Verification of the nu-shell command-execution pipeline.

The JavaScript sources are embedded shallowly:
- strings are modelled as `String` or `List Char` (the tokenizer and the
  history file format work at character level, so those use `List Char`);
- the mutable scanning loops become structural recursions; the tokenizer
  takes a fuel argument (initialised to the input length; every step of the
  original loop advances the index by at least one, so the fuel is never
  exhausted on the real entry point);
- process/stream side effects are modelled by returning the data that the
  code writes (file contents, diagnostic lines tagged with the output
  channel) and, for the pipeline executor, by an explicit completion
  counter mirroring the `checkCompletion` closure.
-/

namespace NuShell

/-- Character constants, written via code points so the embedding does not
depend on escape conventions of the host syntax. -/
def backslashChar : Char := Char.ofNat 92

/-- Single-quote character (code point 39). -/
def squoteChar : Char := Char.ofNat 39

/-- Double-quote character (code point 34). -/
def dquoteChar : Char := Char.ofNat 34

/-- Space character (code point 32). -/
def spaceChar : Char := Char.ofNat 32

/-- Tab character (code point 9). -/
def tabChar : Char := Char.ofNat 9

/-- Newline character (code point 10). -/
def nlChar : Char := Char.ofNat 10

/-- Whitespace test used by the tokenizer loop: the source checks
`input[i] === " " || input[i] === "\t"`. -/
def isWsChar (c : Char) : Bool := c == spaceChar || c == tabChar

/-- Emit the current token if it is non-empty
(`if (currentToken.length > 0) tokens.push(currentToken)`). -/
def flushToken (cur : List Char) (acc : List (List Char)) : List (List Char) :=
  if cur.length > 0 then acc ++ [cur] else acc

/-- Main loop of `parseCommandLine` (src/app/parsers/commandParser.js,
lines 25-150), one constructor case per iteration.  The five sections of
the source appear in order: backslash inside double quotes, backslash
outside quotes, single quote, double quote, plain character / separator.
The source's dead re-open checks (the `if (i < input.length &&
input[i] === "'")` after a close, reachable only when the preceding
two-character lookahead already failed on the same character) are omitted:
their conditions are false on every path that reaches them. -/
def tokLoop : Nat → List Char → Bool → Bool → List Char → List (List Char) → List (List Char)
  | _, [], _, _, cur, acc => flushToken cur acc
  | 0, _ :: _, _, _, cur, acc => flushToken cur acc
  | fuel + 1, c :: rest, inS, inD, cur, acc =>
    if c = backslashChar ∧ inD = true ∧ inS = false then
      match rest with
      | [] => tokLoop fuel [] inS inD (cur ++ [c]) acc
      | c2 :: rest2 =>
        if c2 = dquoteChar then tokLoop fuel rest2 inS inD (cur ++ [dquoteChar]) acc
        else if c2 = backslashChar then tokLoop fuel rest2 inS inD (cur ++ [backslashChar]) acc
        else tokLoop fuel rest2 inS inD (cur ++ [backslashChar, c2]) acc
    else if c = backslashChar ∧ inS = false ∧ inD = false then
      match rest with
      | [] => tokLoop fuel [] inS inD (cur ++ [c]) acc
      | c2 :: rest2 => tokLoop fuel rest2 inS inD (cur ++ [c2]) acc
    else if c = squoteChar ∧ inD = false then
      if inS then
        match rest with
        | [] => tokLoop fuel [] false inD cur acc
        | c2 :: rest2 =>
          if c2 = squoteChar then tokLoop fuel rest2 true inD cur acc
          else tokLoop fuel (c2 :: rest2) false inD cur acc
      else
        match rest with
        | [] => tokLoop fuel [] true inD cur acc
        | c2 :: rest2 =>
          if c2 = squoteChar then tokLoop fuel rest2 false inD cur acc
          else tokLoop fuel (c2 :: rest2) true inD cur acc
    else if c = dquoteChar ∧ inS = false then
      if inD then
        match rest with
        | [] => tokLoop fuel [] inS false cur acc
        | c2 :: rest2 =>
          if c2 = dquoteChar then tokLoop fuel rest2 inS true cur acc
          else tokLoop fuel (c2 :: rest2) inS false cur acc
      else
        match rest with
        | [] => tokLoop fuel [] inS true cur acc
        | c2 :: rest2 =>
          if c2 = dquoteChar then tokLoop fuel rest2 inS false cur acc
          else tokLoop fuel (c2 :: rest2) inS true cur acc
    else if inS ∨ inD then
      tokLoop fuel rest inS inD (cur ++ [c]) acc
    else if c = spaceChar ∨ c = tabChar then
      tokLoop fuel (rest.dropWhile isWsChar) inS inD [] (flushToken cur acc)
    else
      tokLoop fuel rest inS inD (cur ++ [c]) acc

/-- Tokenizer `parseCommandLine` over a line given as a character list. -/
def parseCommandLine (input : List Char) : List (List Char) :=
  tokLoop input.length input false false [] []

/-- Diagnostic printed by `parsePipeline` on an empty stage
(`syntax error near unexpected token '|'`, the quotes built from
code point 39). -/
def unexpectedPipeMsg : String :=
  "syntax error near unexpected token " ++
    String.mk [squoteChar] ++ "|" ++ String.mk [squoteChar]

/-- Loop of `parsePipeline` (src/unnamed/part_003, lines 26-53).  The second
component of the result collects the `console.log` diagnostic lines. -/
def pipeLoop : List String → List String → List (List String) → List (List String) × List String
  | [], cur, cmds =>
    if cur.length = 0 ∧ cmds.length > 0 then ([], [unexpectedPipeMsg])
    else if cur.length > 0 then (cmds ++ [cur], [])
    else (cmds, [])
  | tok :: rest, cur, cmds =>
    if tok = "|" then
      if cur.length = 0 then ([], [unexpectedPipeMsg])
      else pipeLoop rest [] (cmds ++ [cur])
    else pipeLoop rest (cur ++ [tok]) cmds

/-- Pipeline splitter: list of stages plus printed diagnostics. -/
def parsePipeline (tokens : List String) : List (List String) × List String :=
  pipeLoop tokens [] []

/-- Result record of `parseRedirection` (src/unnamed/part_003). -/
structure RedirectionInfo where
  hasRedirection : Bool
  commandTokens : List String
  redirectFile : Option String
  redirectFd : Nat
  isAppend : Bool
deriving DecidableEq, Repr

/-- Head-position redirection test, cases 1-10 of the scan loop of
`parseRedirection` in source order. Returns fd, append mode and the target
token (`rest[0]?` is the token after the operator, `rest[1]?` the one after
a split-fd operator pair). -/
def headRedirOp (tok : String) (rest : List String) : Option (Nat × Bool × Option String) :=
  if tok = ">" then some (1, false, rest[0]?)
  else if tok = ">>" then some (1, true, rest[0]?)
  else if tok = "1>" then some (1, false, rest[0]?)
  else if tok = "1>>" then some (1, true, rest[0]?)
  else if tok = "2>" then some (2, false, rest[0]?)
  else if tok = "2>>" then some (2, true, rest[0]?)
  else if tok = "1" ∧ rest[0]? = some ">" then some (1, false, rest[1]?)
  else if tok = "1" ∧ rest[0]? = some ">>" then some (1, true, rest[1]?)
  else if tok = "2" ∧ rest[0]? = some ">" then some (2, false, rest[1]?)
  else if tok = "2" ∧ rest[0]? = some ">>" then some (2, true, rest[1]?)
  else none

/-- Scan of `parseRedirection`: index of the first matching operator
position together with the decoded clause, `none` when no position
matches. -/
def redirScan : List String → Option (Nat × Nat × Bool × Option String)
  | [] => none
  | tok :: rest =>
    match headRedirOp tok rest with
    | some (fd, app, file) => some (0, fd, app, file)
    | none =>
      match redirScan rest with
      | some (j, fd, app, file) => some (j + 1, fd, app, file)
      | none => none

/-- Redirection extractor `parseRedirection` (src/unnamed/part_003,
lines 84-218). -/
def parseRedirection (tokens : List String) : RedirectionInfo :=
  match redirScan tokens with
  | none => ⟨false, tokens, none, 1, false⟩
  | some (idx, fd, app, file) => ⟨true, tokens.take idx, file, fd, app⟩

/-- Declarative per-table operator decoding for the combined operator
tokens, following the operator table of the specification (fd and mode). -/
def combinedOpInfo (tok : String) : Option (Nat × Bool) :=
  if tok = ">" then some (1, false)
  else if tok = ">>" then some (1, true)
  else if tok = "1>" then some (1, false)
  else if tok = "1>>" then some (1, true)
  else if tok = "2>" then some (2, false)
  else if tok = "2>>" then some (2, true)
  else none

/-- Declarative decoding of the split-fd forms (`1`/`2` followed by
`>`/`>>` as separate tokens), following the specification. -/
def splitFdInfo (tok next : String) : Option (Nat × Bool) :=
  if (tok = "1" ∨ tok = "2") ∧ (next = ">" ∨ next = ">>") then
    some (if tok = "1" then 1 else 2, next = ">>")
  else none

/-- Specification-side matcher: does a recognized operator occur at
position `i`, and with which fd, mode, and distance from the operator to
its target token (1 for combined forms, 2 for split-fd forms)?
Modelled from the claim's operator list, independently of the scan
loop port. -/
def opAtSpec (tokens : List String) (i : Nat) : Option (Nat × Bool × Nat) :=
  match tokens.drop i with
  | [] => none
  | tok :: rest =>
    match combinedOpInfo tok with
    | some (fd, app) => some (fd, app, 1)
    | none =>
      match rest[0]? with
      | some next => (splitFdInfo tok next).map (fun p => (p.1, p.2, 2))
      | none => none

/-- Output channels of the process: `console.log` / `process.stdout.write`
target `stdout`, `console.error` targets `stderr`, and a builtin running
inside a pipeline writes to the inter-stage `pipe` stream. -/
inductive Channel
  | stdout
  | stderr
  | pipe
deriving DecidableEq, Repr

/-- Model of Node's `console.log`: one line on standard output. -/
def consoleLog (s : String) : Channel × String := (Channel.stdout, s ++ "\n")

/-- Model of Node's `console.error`: one line on standard error. -/
def consoleError (s : String) : Channel × String := (Channel.stderr, s ++ "\n")

/-- Helper `writeOutput` of src/app/command/builtins.js: write to the
output stream when one is given, otherwise to `process.stdout`. -/
def writeOutput (output : String) (hasOutputStream : Bool) : Channel × String :=
  if hasOutputStream then (Channel.pipe, output) else (Channel.stdout, output)

/-- Builtin command catalog (src/app/command/builtins.js, line 17). -/
def BUILTINS : List String := ["echo", "exit", "type", "pwd", "cd", "history"]

/-- Builtin test `isBuiltin`. -/
def isBuiltin (command : String) : Bool := BUILTINS.contains command

/-- Outcome of `spawn` for a command already located in PATH: either the
child starts (and later emits `close`), or its `error` event fires with a
message. -/
inductive SpawnOutcome
  | ok
  | errored (msg : String)

/-- Diagnostics emitted by `executeSingleCommand` (src/unnamed/part_002,
lines 56-148): `command not found` via `console.log` when the PATH lookup
fails, `Error: MSG` via `console.error` when the child's `error` event
fires. A normal run emits no diagnostic. -/
def executeSingleCommandEmits (found : Bool) (command : String) (outcome : SpawnOutcome) :
    List (Channel × String) :=
  if found = false then [consoleLog (command ++ ": command not found")]
  else
    match outcome with
    | SpawnOutcome.ok => []
    | SpawnOutcome.errored msg => [consoleError ("Error: " ++ msg)]

/-- Result of the wiring phase of `executePipeline`: either `onComplete`
was invoked immediately during wiring (empty plan, or an external stage
missing from PATH — `started` stages had already been started and no
completion handler was ever attached to them), or all `total` stages were
wired and the completion counter governs the callback. -/
inductive SetupResult
  | immediate (started : Nat) (emitted : List (Channel × String))
  | wired (total : Nat)
deriving DecidableEq, Repr

/-- Wiring loop of `executePipeline` (src/unnamed/part_002, lines 176-264):
builtins always start; an external stage starts when `findCommandInPath`
resolves it (abstracted by `resolves`), otherwise the executor prints the
not-found diagnostic, calls `onComplete`, and returns mid-loop.  An empty
stage has head `""` here; stages produced by `parsePipeline` are never
empty. -/
def setupLoop (resolves : String → Bool) : List (List String) → Nat → SetupResult
  | [], started => SetupResult.wired started
  | stage :: rest, started =>
    let command := stage.headD ""
    if isBuiltin command then setupLoop resolves rest (started + 1)
    else if resolves command then setupLoop resolves rest (started + 1)
    else SetupResult.immediate started [consoleLog (command ++ ": command not found")]

/-- Wiring phase of `executePipeline`, including the immediate
`onComplete` on an empty plan (lines 167-170). -/
def executePipelineSetup (resolves : String → Bool) (commands : List (List String)) :
    SetupResult :=
  if commands.length = 0 then SetupResult.immediate 0 []
  else setupLoop resolves commands 0

/-- Number of `onComplete` invocations performed by the `checkCompletion`
closure after `signals` terminal signals have been counted against
`total` wired stages: each signal increments `completedCount`, and the
callback fires exactly when the count equals `total`. -/
def checkCompletionCalls (total : Nat) : Nat → Nat
  | 0 => 0
  | s + 1 => checkCompletionCalls total s + (if s + 1 = total then 1 else 0)

/-- Total number of completion-callback invocations observable once
`signals` terminal signals have fired: a wiring-time invocation (the
`immediate` case) is already counted at `signals = 0`. -/
def invocationsAfter (resolves : String → Bool) (commands : List (List String))
    (signals : Nat) : Nat :=
  match executePipelineSetup resolves commands with
  | SetupResult.immediate _ _ => 1
  | SetupResult.wired total => checkCompletionCalls total signals

/-- Rendering of claim C1: with one terminal signal per stage, the
completion callback has fired zero times while any stage is outstanding,
and exactly once when all stages have signalled. -/
def completesOnlyAfterAll (resolves : String → Bool) (commands : List (List String)) : Prop :=
  (∀ s, s < commands.length → invocationsAfter resolves commands s = 0) ∧
  invocationsAfter resolves commands commands.length = 1

/-- Diagnostics of `parsePipeline`, tagged with their channel
(`console.log`). -/
def parsePipelineEmits (tokens : List String) : List (Channel × String) :=
  (parsePipeline tokens).2.map consoleLog

/-- State owned by `createHistoryManager`
(src/app/history/historyManager.js): the entry array and the
`lastSavedIndex` marker.  Entries are character lists. -/
structure HistoryState where
  history : List (List Char)
  lastSavedIndex : Nat
deriving DecidableEq, Repr

/-- History operation `addCommand`. -/
def addCommand (s : HistoryState) (command : List Char) : HistoryState :=
  ⟨s.history ++ [command], s.lastSavedIndex⟩

/-- Entry join of `writeToFile`/`appendToFile`: `history.join("\n")`. -/
def joinNl : List (List Char) → List Char
  | [] => []
  | [e] => e
  | e :: rest => e ++ nlChar :: joinNl rest

/-- File content produced by `writeToFile`:
`history.join("\n") + (history.length > 0 ? "\n" : "")`. -/
def writeContent (h : List (List Char)) : List Char :=
  joinNl h ++ (if h.length > 0 then [nlChar] else [])

/-- Model of JavaScript `content.split("\n")`: every newline separates,
and the empty content yields one empty piece. -/
def splitNl : List Char → List (List Char)
  | [] => [[]]
  | c :: rest =>
    if c = nlChar then [] :: splitNl rest
    else
      match splitNl rest with
      | [] => [[c]]
      | p :: ps => (c :: p) :: ps

/-- Line decoding of `readFromFile`:
`content.split("\n").filter((line) => line.length > 0)`. -/
def readLines (content : List Char) : List (List Char) :=
  (splitNl content).filter (fun l => decide (0 < l.length))

/-- History operation `readFromFile` applied to the content read from the
file: replaces the in-memory history and marks everything saved.  The
I/O-failure branch (file unreadable) leaves the state unchanged and is not
modelled; the content argument stands for a successful read. -/
def readFromFile (_s : HistoryState) (content : List Char) : HistoryState :=
  let lines := readLines content
  ⟨lines, lines.length⟩

/-- History operation `writeToFile`: returns the new state and the file
content written (overwriting semantics; the write is assumed to
succeed). -/
def writeToFile (s : HistoryState) : HistoryState × List Char :=
  (⟨s.history, s.history.length⟩, writeContent s.history)

/-- History operation `appendToFile`: returns the new state and the bytes
appended to the file (`[]` in the early-return branch where
`lastSavedIndex >= history.length`; the append is assumed to succeed). -/
def appendToFile (s : HistoryState) : HistoryState × List Char :=
  if s.history.length ≤ s.lastSavedIndex then (s, [])
  else
    (⟨s.history, s.history.length⟩,
      joinNl (s.history.drop s.lastSavedIndex) ++ [nlChar])

/-- Whitespace skipped by JavaScript `parseInt` before the number (space,
tab, newline, carriage return, vertical tab, form feed; the full
WhiteSpace production also has exotic Unicode members that tokens of this
shell cannot contain in practice). -/
def jsNumWs (c : Char) : Bool :=
  c == spaceChar || c == tabChar || c == nlChar || c == Char.ofNat 13 ||
    c == Char.ofNat 11 || c == Char.ofNat 12

/-- Value of a maximal leading decimal-digit run, `none` when there is no
leading digit. -/
def digitsVal (cs : List Char) : Option Nat :=
  let ds := cs.takeWhile (fun c => c.isDigit)
  if ds.length = 0 then none
  else some (ds.foldl (fun a c => a * 10 + (c.toNat - 48)) 0)

/-- Model of JavaScript `parseInt(s, 10)`: skip leading whitespace, an
optional sign, then a maximal digit run; `none` models `NaN`. -/
def parseIntJs (s : String) : Option Int :=
  let cs := s.data.dropWhile jsNumWs
  match cs with
  | [] => none
  | c :: rest =>
    if c = Char.ofNat 45 then (digitsVal rest).map (fun n => -(n : Int))
    else if c = Char.ofNat 43 then (digitsVal rest).map (fun n => (n : Int))
    else (digitsVal cs).map (fun n => (n : Int))

/-- Result of `executeHistory`: either one of the file operations (whose
semantics live in the `HistoryState` operations above; the carried option
is the path argument, `none` when it is missing) or a display of formatted
output. -/
inductive HistoryCmdResult
  | fileOp (flag : String) (path : Option String)
  | display (output : String)
deriving DecidableEq, Repr

/-- Display mode of `executeHistory` (builtins.js, lines 254-278):
`numToShow` defaults to the history length and is replaced by the parsed
flag only when that parses to a strictly positive number. -/
def historyDisplay (flagOpt : Option String) (history : List String) : String :=
  let len := history.length
  let numToShow : Int :=
    match flagOpt with
    | none => (len : Int)
    | some flag =>
      match parseIntJs flag with
      | some n => if 0 < n then n else (len : Int)
      | none => (len : Int)
  let startIndex : Nat := (max 0 ((len : Int) - numToShow)).toNat
  String.join (((List.range len).drop startIndex).map
    (fun i => "    " ++ toString (i + 1) ++ "  " ++ history.getD i "" ++ "\n"))

/-- Builtin `executeHistory` (builtins.js, lines 200-279): the `-r`, `-w`,
`-a` branches select a file operation, everything else displays. -/
def executeHistory (args : List String) (history : List String) : HistoryCmdResult :=
  let flag := args[0]?
  if flag = some "-r" then HistoryCmdResult.fileOp "-r" args[1]?
  else if flag = some "-w" then HistoryCmdResult.fileOp "-w" args[1]?
  else if flag = some "-a" then HistoryCmdResult.fileOp "-a" args[1]?
  else HistoryCmdResult.display (historyDisplay flag history)

/-- JavaScript truthiness of an optional string: `undefined` and the empty
string are falsy. -/
def jsTruthy : Option String → Bool
  | none => false
  | some s => decide (0 < s.length)

/-- Simplified `path.join(home, rest)` for the tilde branch of `cd`; the
normalisation Node applies on top of the separator insertion is not needed
by any claim. -/
def pathJoin (a b : String) : String := a ++ "/" ++ b

/-- Model of JavaScript `s.startsWith(p)` over the character lists (the
builtin `String.startsWith` is byte-position based and does not reduce in
the kernel). -/
def jsStartsWith (s p : String) : Bool := List.isPrefixOf p.data s.data

/-- Result of `executeCd`: the working directory after the call and the
diagnostic lines written through `writeOutput`. -/
structure CdResult where
  cwd : String
  emitted : List String
deriving DecidableEq, Repr

/-- The `process.chdir` attempt at the end of `executeCd`: `dirExists`
abstracts whether `chdir` succeeds on the target. -/
def attemptChdir (target cwd : String) (dirExists : String → Bool) : CdResult :=
  if dirExists target then ⟨target, []⟩
  else ⟨cwd, ["cd: " ++ target ++ ": No such file or directory\n"]⟩

/-- Builtin `executeCd` (builtins.js, lines 97-144).  `home` models
`process.env.HOME` (`none` when unset), `cwd` the process working
directory.  After the tilde block the target is always truthy, so the
source's second `!targetDir` test cannot fire there and the port goes
straight to the `chdir` attempt. -/
def executeCd (args : List String) (home : Option String) (cwd : String)
    (dirExists : String → Bool) : CdResult :=
  let targetDir : Option String := if 0 < args.length then args[0]? else home
  if jsTruthy targetDir = true ∧ jsStartsWith (targetDir.getD "") "~" = true then
    if jsTruthy home = false then ⟨cwd, ["cd: HOME not set\n"]⟩
    else
      let h := home.getD ""
      let td := targetDir.getD ""
      let td2 :=
        if td = "~" then h
        else if jsStartsWith td "~/" then pathJoin h (td.drop 2)
        else td
      attemptChdir td2 cwd dirExists
  else if jsTruthy targetDir = false then ⟨cwd, ["cd: HOME not set\n"]⟩
  else attemptChdir (targetDir.getD "") cwd dirExists

/-! Theorems. -/

theorem pipeLoop_no_pipe (ts : List String) (h : "|" ∉ ts) :
    ∀ cur cmds, pipeLoop ts cur cmds = pipeLoop [] (cur ++ ts) cmds := by
  induction ts with
  | nil => intro cur cmds; simp
  | cons t ts ih =>
    intro cur cmds
    have ht : t ≠ "|" := fun e => h (e ▸ List.mem_cons_self t ts)
    have hts : "|" ∉ ts := fun m => h (List.mem_cons_of_mem t m)
    conv_lhs => rw [pipeLoop]
    rw [if_neg ht, ih hts (cur ++ [t]) cmds]
    simp

/-- Claim C3 (corrected): the pipeline splitter is the identity wrapped in
a single stage on every non-empty token list that contains no `|`; the
empty token list instead yields an empty plan (see the counterexample). -/
theorem parsePipeline_no_pipe_single_stage (tokens : List String)
    (hne : tokens ≠ []) (h : "|" ∉ tokens) :
    parsePipeline tokens = ([tokens], []) := by
  unfold parsePipeline
  rw [pipeLoop_no_pipe tokens h [] []]
  simp only [List.nil_append, pipeLoop]
  have : tokens.length > 0 := List.length_pos.mpr hne
  rw [if_neg (by omega), if_pos this]

/-- Claim C3 counterexample: on the empty token list (which contains no
`|`) the splitter returns zero stages, not one. -/
theorem parsePipeline_nil_not_single_stage :
    (parsePipeline []).1 ≠ [([] : List String)] := by decide

/-- Claim C3 witness: the amended statement applied at a concrete list. -/
theorem parsePipeline_no_pipe_single_stage_witness :
    parsePipeline ["echo", "hi"] = ([["echo", "hi"]], []) :=
  parsePipeline_no_pipe_single_stage ["echo", "hi"] (by decide) (by decide)

theorem pipeLoop_double_pipe (l : List String) :
    ∀ r cur cmds, pipeLoop (l ++ "|" :: "|" :: r) cur cmds = ([], [unexpectedPipeMsg]) := by
  induction l with
  | nil =>
    intro r cur cmds
    by_cases hc : cur.length = 0
    · simp [pipeLoop, hc]
    · simp [pipeLoop, hc]
  | cons t l ih =>
    intro r cur cmds
    by_cases ht : t = "|"
    · subst ht
      by_cases hc : cur.length = 0
      · simp [pipeLoop, hc]
      · simp [pipeLoop, hc, ih]
    · simp [pipeLoop, ht, ih]

theorem pipeLoop_trailing_pipe (l : List String) :
    ∀ cur cmds, pipeLoop (l ++ ["|"]) cur cmds = ([], [unexpectedPipeMsg]) := by
  induction l with
  | nil =>
    intro cur cmds
    by_cases hc : cur.length = 0
    · simp [pipeLoop, hc]
    · simp [pipeLoop, hc]
  | cons t l ih =>
    intro cur cmds
    by_cases ht : t = "|"
    · subst ht
      by_cases hc : cur.length = 0
      · simp [pipeLoop, hc]
      · simp [pipeLoop, hc, ih]
    · simp [pipeLoop, ht, ih]

theorem exists_append_of_getLast? {α : Type} (l : List α) (a : α)
    (h : l.getLast? = some a) : ∃ l2, l = l2 ++ [a] := by
  induction l with
  | nil => simp at h
  | cons x xs ih =>
    cases xs with
    | nil =>
      simp [List.getLast?] at h
      exact ⟨[], by simp [h]⟩
    | cons y ys =>
      rw [List.getLast?_cons_cons] at h
      obtain ⟨l2, hl2⟩ := ih h
      exact ⟨x :: l2, by simp [hl2]⟩

theorem exists_doubled_decomp {α : Type} (l : List α) (a : α) :
    ∀ i, l[i]? = some a → l[i + 1]? = some a →
      ∃ l1 r, l = l1 ++ a :: a :: r := by
  induction l with
  | nil => intro i h; simp at h
  | cons x xs ih =>
    intro i h1 h2
    cases i with
    | zero =>
      simp at h1
      cases xs with
      | nil => simp at h2
      | cons y ys =>
        simp at h2
        exact ⟨[], ys, by simp [h1, h2]⟩
    | succ j =>
      simp only [List.getElem?_cons_succ] at h1 h2
      obtain ⟨l1, r, hr⟩ := ih j h1 h2
      exact ⟨x :: l1, r, by simp [hr]⟩

/-- Claim C4 (confirmed): a `|` at the start, at the end, or immediately
after another `|` makes `parsePipeline` print the single syntax-error
diagnostic and return the empty plan. -/
theorem parsePipeline_empty_stage_error (tokens : List String)
    (hbad : tokens[0]? = some "|" ∨ tokens.getLast? = some "|" ∨
      ∃ i, tokens[i]? = some "|" ∧ tokens[i + 1]? = some "|") :
    parsePipeline tokens = ([], [unexpectedPipeMsg]) := by
  rcases hbad with h | h | ⟨i, h1, h2⟩
  · cases tokens with
    | nil => simp at h
    | cons t ts =>
      simp at h
      subst h
      simp [parsePipeline, pipeLoop]
  · obtain ⟨l2, hl2⟩ := exists_append_of_getLast? tokens "|" h
    rw [hl2]
    exact pipeLoop_trailing_pipe l2 [] []
  · obtain ⟨l1, r, hr⟩ := exists_doubled_decomp tokens "|" i h1 h2
    rw [hr]
    exact pipeLoop_double_pipe l1 r [] []

/-- Claim C4 witness: the lone-pipe line. -/
theorem parsePipeline_empty_stage_error_witness :
    parsePipeline ["|"] = ([], [unexpectedPipeMsg]) :=
  parsePipeline_empty_stage_error ["|"] (Or.inl (by decide))

/-- Claim C7 (confirmed): a second `appendToFile` with no intervening
`addCommand` appends zero bytes and leaves the state unchanged, because
the first call advanced (or had already advanced) the last-saved marker to
the history length. -/
theorem appendToFile_second_call_noop (s : HistoryState) :
    (appendToFile (appendToFile s).1).2 = [] ∧
      (appendToFile (appendToFile s).1).1 = (appendToFile s).1 := by
  unfold appendToFile
  by_cases h : s.history.length ≤ s.lastSavedIndex
  · simp [h]
  · simp [h]

/-- Claim C8 (confirmed): `cd` with no argument while `HOME` is unset
emits exactly the `HOME not set` diagnostic and leaves the working
directory unchanged, for every working directory and every state of the
file system. -/
theorem executeCd_no_arg_no_home (cwd : String) (dirExists : String → Bool) :
    executeCd [] none cwd dirExists = ⟨cwd, ["cd: HOME not set\n"]⟩ := by
  rfl

theorem splitNl_ne_nil (cs : List Char) : splitNl cs ≠ [] := by
  induction cs with
  | nil => simp [splitNl]
  | cons c rest ih =>
    by_cases hc : c = nlChar
    · simp [splitNl, hc]
    · simp only [splitNl, if_neg hc]
      cases h : splitNl rest with
      | nil => simp
      | cons p ps => simp

theorem splitNl_no_nl (cs : List Char) : ∀ p ∈ splitNl cs, nlChar ∉ p := by
  induction cs with
  | nil => simp [splitNl]
  | cons c rest ih =>
    by_cases hc : c = nlChar
    · simp only [splitNl, if_pos hc]
      intro p hp
      rcases List.mem_cons.mp hp with h | h
      · simp [h]
      · exact ih p h
    · simp only [splitNl, if_neg hc]
      cases h : splitNl rest with
      | nil => exact absurd h (splitNl_ne_nil rest)
      | cons q qs =>
        intro p hp
        rcases List.mem_cons.mp hp with hh | hh
        · subst hh
          intro hm
          rcases List.mem_cons.mp hm with h1 | h1
          · exact hc h1.symm
          · exact ih q (h ▸ List.mem_cons_self q qs) h1
        · exact ih p (h ▸ List.mem_cons_of_mem q hh)

theorem splitNl_append_sep (e r : List Char) (he : nlChar ∉ e) :
    splitNl (e ++ nlChar :: r) = e :: splitNl r := by
  induction e with
  | nil => simp [splitNl]
  | cons c e ih =>
    have hc : ¬c = nlChar := fun h => he (h ▸ List.mem_cons_self c e)
    have he2 : nlChar ∉ e := fun m => he (List.mem_cons_of_mem c m)
    simp only [List.cons_append, splitNl, if_neg hc, List.append_eq]
    rw [ih he2]

theorem writeContent_cons (e : List Char) (t : List (List Char)) :
    writeContent (e :: t) = e ++ nlChar :: writeContent t := by
  cases t with
  | nil => simp [writeContent, joinNl]
  | cons f t => simp [writeContent, joinNl]

theorem readLines_writeContent (h : List (List Char))
    (hinv : ∀ e ∈ h, e ≠ [] ∧ nlChar ∉ e) :
    readLines (writeContent h) = h := by
  induction h with
  | nil => decide
  | cons e t ih =>
    have he := hinv e (List.mem_cons_self e t)
    have ht : ∀ x ∈ t, x ≠ [] ∧ nlChar ∉ x := fun x hx => hinv x (List.mem_cons_of_mem e hx)
    rw [writeContent_cons]
    unfold readLines
    rw [splitNl_append_sep e (writeContent t) he.2]
    have hlen : decide (0 < e.length) = true := by
      simp [List.length_pos]
      exact he.1
    simp only [List.filter_cons, hlen, if_pos]
    have := ih ht
    unfold readLines at this
    rw [this]

/-- Entries loaded by `readFromFile` are non-empty and newline-free (the
well-formedness every in-memory history satisfies, since the REPL only
adds trimmed non-empty terminal lines and reads filter on length). -/
theorem readFromFile_entries_wellformed (s : HistoryState) (content : List Char) :
    ∀ e ∈ (readFromFile s content).history, e ≠ [] ∧ nlChar ∉ e := by
  intro e he
  simp only [readFromFile, readLines] at he
  have hmem := List.mem_of_mem_filter he
  have hfil := List.of_mem_filter he
  refine ⟨?_, splitNl_no_nl content e hmem⟩
  intro hnil
  rw [hnil] at hfil
  simp at hfil

/-- An `addCommand` with a well-formed entry preserves well-formedness. -/
theorem addCommand_entries_wellformed (s : HistoryState) (c : List Char)
    (hs : ∀ e ∈ s.history, e ≠ [] ∧ nlChar ∉ e) (hc : c ≠ [] ∧ nlChar ∉ c) :
    ∀ e ∈ (addCommand s c).history, e ≠ [] ∧ nlChar ∉ e := by
  intro e he
  simp only [addCommand, List.mem_append, List.mem_singleton] at he
  rcases he with he | he
  · exact hs e he
  · exact he ▸ hc

/-- Claim C6 (confirmed): for every well-formed in-memory history (entries
non-empty and newline-free, as all reachable histories are), writing the
history to a file and reading that file back leaves the in-memory history
equal to the pre-write history. -/
theorem history_write_read_roundtrip (s : HistoryState)
    (hinv : ∀ e ∈ s.history, e ≠ [] ∧ nlChar ∉ e) :
    (readFromFile (writeToFile s).1 (writeToFile s).2).history = s.history := by
  simp only [writeToFile, readFromFile]
  exact readLines_writeContent s.history hinv

/-- Claim C6 witness at a two-entry history. -/
theorem history_write_read_roundtrip_witness :
    (readFromFile (writeToFile ⟨[['l', 's'], ['p', 'w', 'd']], 0⟩).1
        (writeToFile ⟨[['l', 's'], ['p', 'w', 'd']], 0⟩).2).history =
      [['l', 's'], ['p', 'w', 'd']] :=
  history_write_read_roundtrip ⟨[['l', 's'], ['p', 'w', 'd']], 0⟩ (by decide)

/-- Claim C10 (confirmed): a present first argument that is not `-r`, `-w`
or `-a` and does not parse to a strictly positive integer makes `history`
display the complete history with original indices, exactly as with no
argument. -/
theorem executeHistory_invalid_count_full_display (flag : String)
    (rest history : List String)
    (hr : flag ≠ "-r") (hw : flag ≠ "-w") (ha : flag ≠ "-a")
    (hn : parseIntJs flag = none ∨ ∃ n, parseIntJs flag = some n ∧ n ≤ 0) :
    executeHistory (flag :: rest) history = executeHistory [] history := by
  have hd : historyDisplay (some flag) history = historyDisplay none history := by
    rcases hn with hn | ⟨n, hn, hle⟩
    · simp [historyDisplay, hn]
    · simp [historyDisplay, hn, show ¬(0 : Int) < n from by omega]
  simp [executeHistory, hr, hw, ha, hd]

/-- Claim C10 witness: `history 0` behaves like plain `history`. -/
theorem executeHistory_invalid_count_witness :
    executeHistory ["0"] ["ls", "pwd"] = executeHistory [] ["ls", "pwd"] ∧
      executeHistory [] ["ls", "pwd"] =
        HistoryCmdResult.display "    1  ls\n    2  pwd\n" :=
  ⟨executeHistory_invalid_count_full_display "0" [] ["ls", "pwd"] (by decide)
      (by decide) (by decide) (Or.inr ⟨0, by decide, by decide⟩),
    by decide⟩

theorem setupLoop_immediate_emits (resolves : String → Bool) :
    ∀ (cmds : List (List String)) (k started : Nat) (em : List (Channel × String)),
      setupLoop resolves cmds k = SetupResult.immediate started em →
      ∀ e ∈ em, e.1 = Channel.stdout := by
  intro cmds
  induction cmds with
  | nil => intro k started em h; simp [setupLoop] at h
  | cons stage rest ih =>
    intro k started em h
    by_cases hb : isBuiltin (stage.headD "") = true
    · rw [setupLoop, if_pos hb] at h
      exact ih (k + 1) started em h
    · by_cases hrv : resolves (stage.headD "") = true
      · rw [setupLoop, if_neg hb, if_pos hrv] at h
        exact ih (k + 1) started em h
      · rw [setupLoop, if_neg hb, if_neg hrv] at h
        injection h with h1 h2
        subst h2
        intro e he
        simp only [List.mem_singleton] at he
        simp [he, consoleLog]

/-- Claim C9 (amended): every modelled diagnostic goes to standard output
except the spawn-failure message, which `console.error` sends to standard
error.  Covers `executeSingleCommand` (not-found and `Error: MSG`),
`parsePipeline` syntax errors, the not-found diagnostic of
`executePipeline`'s wiring phase, and any builtin output written with no
output stream. -/
theorem diagnostics_channel_classification :
    (∀ (found : Bool) (command : String) (outcome : SpawnOutcome),
        ∀ e ∈ executeSingleCommandEmits found command outcome,
          e.1 = Channel.stdout ∨
            (e.1 = Channel.stderr ∧ ∃ m, e.2 = "Error: " ++ m ++ "\n")) ∧
    (∀ tokens : List String, ∀ e ∈ parsePipelineEmits tokens, e.1 = Channel.stdout) ∧
    (∀ (resolves : String → Bool) (commands : List (List String))
        (started : Nat) (em : List (Channel × String)),
        executePipelineSetup resolves commands = SetupResult.immediate started em →
        ∀ e ∈ em, e.1 = Channel.stdout) ∧
    (∀ output : String, writeOutput output false = (Channel.stdout, output)) := by
  refine ⟨?_, ?_, ?_, fun _ => rfl⟩
  · intro found command outcome e he
    cases found with
    | false =>
      simp [executeSingleCommandEmits, consoleLog] at he
      left
      rw [he]
    | true =>
      cases outcome with
      | ok => simp [executeSingleCommandEmits] at he
      | errored msg =>
        simp [executeSingleCommandEmits, consoleError] at he
        right
        rw [he]
        exact ⟨rfl, msg, rfl⟩
  · intro tokens e he
    simp only [parsePipelineEmits, List.mem_map] at he
    obtain ⟨s, _, hs⟩ := he
    simp [← hs, consoleLog]
  · intro resolves commands started em h
    by_cases hz : commands.length = 0
    · rw [executePipelineSetup, if_pos hz] at h
      injection h with h1 h2
      subst h2
      simp
    · rw [executePipelineSetup, if_neg hz] at h
      exact setupLoop_immediate_emits resolves commands 0 started em h

/-- Claim C9 counterexample: the spawn-failure diagnostic of
`executeSingleCommand` is written by `console.error` to standard error,
not to standard output. -/
theorem spawn_failure_on_stderr :
    (Channel.stderr, "Error: boom\n") ∈
        executeSingleCommandEmits true "x" (SpawnOutcome.errored "boom") ∧
      Channel.stderr ≠ Channel.stdout := by
  constructor
  · simp [executeSingleCommandEmits, consoleError]
  · decide

/-- Claim C9 witness: the not-found diagnostic goes to standard output. -/
theorem diagnostics_channel_witness :
    (Channel.stdout, "foo: command not found\n") ∈
        executeSingleCommandEmits false "foo" SpawnOutcome.ok ∧
      ((Channel.stdout, "foo: command not found\n").1 = Channel.stdout ∨
        ((Channel.stdout, "foo: command not found\n").1 = Channel.stderr ∧
          ∃ m, "foo: command not found\n" = "Error: " ++ m ++ "\n")) :=
  ⟨by simp [executeSingleCommandEmits, consoleLog],
    diagnostics_channel_classification.1 false "foo" SpawnOutcome.ok _
      (by simp [executeSingleCommandEmits, consoleLog])⟩

theorem setupLoop_all_started (resolves : String → Bool) (cmds : List (List String))
    (h : ∀ stage ∈ cmds,
      isBuiltin (stage.headD "") = true ∨ resolves (stage.headD "") = true) :
    ∀ k, setupLoop resolves cmds k = SetupResult.wired (k + cmds.length) := by
  induction cmds with
  | nil => intro k; simp [setupLoop]
  | cons stage rest ih =>
    intro k
    have hrest : ∀ x ∈ rest,
        isBuiltin (x.headD "") = true ∨ resolves (x.headD "") = true :=
      fun x hx => h x (List.mem_cons_of_mem stage hx)
    by_cases hb : isBuiltin (stage.headD "") = true
    · rw [setupLoop, if_pos hb, ih hrest (k + 1)]
      congr 1
      simp
      omega
    · have hrv : resolves (stage.headD "") = true :=
        (h stage (List.mem_cons_self stage rest)).resolve_left hb
      rw [setupLoop, if_neg hb, if_pos hrv, ih hrest (k + 1)]
      congr 1
      simp
      omega

theorem checkCompletionCalls_eval (total : Nat) :
    ∀ s, checkCompletionCalls total s = if 1 ≤ total ∧ total ≤ s then 1 else 0 := by
  intro s
  induction s with
  | zero =>
    rw [checkCompletionCalls]
    split
    · omega
    · rfl
  | succ n ih =>
    rw [checkCompletionCalls, ih]
    split_ifs <;> omega

/-- Claim C1 (amended): for every non-empty pipeline plan all of whose
stages start (builtins, and externals found in PATH), the completion
callback has been invoked zero times while fewer terminal signals than
stages have occurred, and exactly once when every stage has signalled.
When some external stage is missing from PATH the callback fires once
already at wiring time (see the counterexample). -/
theorem executePipeline_completion (resolves : String → Bool)
    (commands : List (List String)) (hne : commands ≠ [])
    (hall : ∀ stage ∈ commands,
      isBuiltin (stage.headD "") = true ∨ resolves (stage.headD "") = true) :
    completesOnlyAfterAll resolves commands := by
  have hlen : ¬commands.length = 0 := by
    have := List.length_pos.mpr hne
    omega
  have hs : executePipelineSetup resolves commands = SetupResult.wired commands.length := by
    rw [executePipelineSetup, if_neg hlen]
    simpa using setupLoop_all_started resolves commands hall 0
  constructor
  · intro s hslt
    simp only [invocationsAfter, hs, checkCompletionCalls_eval]
    rw [if_neg (by omega)]
  · simp only [invocationsAfter, hs, checkCompletionCalls_eval]
    rw [if_pos ⟨by omega, le_refl _⟩]

/-- Claim C1 counterexample: in the plan `sleep 5 | nosuch` (first stage
resolvable, second not), the executor calls the completion callback at
wiring time, before the already-spawned first stage has signalled
termination — `completesOnlyAfterAll` fails. -/
theorem executePipeline_completion_counterexample :
    ¬completesOnlyAfterAll (fun s => s == "sleep") [["sleep", "5"], ["nosuch"]] := by
  intro hcl
  have h0 := hcl.1 0 (by decide)
  have h1 : invocationsAfter (fun s => s == "sleep")
      [["sleep", "5"], ["nosuch"]] 0 = 1 := by decide
  omega

/-- Claim C1 witness: a two-stage plan whose commands all resolve. -/
theorem executePipeline_completion_witness :
    completesOnlyAfterAll (fun _ => true) [["ls"], ["wc"]] ∧
      invocationsAfter (fun _ => true) [["ls"], ["wc"]] 1 = 0 ∧
      invocationsAfter (fun _ => true) [["ls"], ["wc"]] 2 = 1 :=
  ⟨executePipeline_completion (fun _ => true) [["ls"], ["wc"]] (by decide) (by decide),
    by decide, by decide⟩

theorem combinedOp_headRedirOp (tok : String) (rest : List String) (fd : Nat) (app : Bool)
    (h : combinedOpInfo tok = some (fd, app)) :
    headRedirOp tok rest = some (fd, app, rest[0]?) := by
  unfold combinedOpInfo at h
  unfold headRedirOp
  split_ifs at h <;> simp_all

theorem splitFd_headRedirOp (tok next : String) (rest : List String) (fd : Nat) (app : Bool)
    (hc : combinedOpInfo tok = none) (hnext : rest[0]? = some next)
    (h : splitFdInfo tok next = some (fd, app)) :
    headRedirOp tok rest = some (fd, app, rest[1]?) := by
  unfold combinedOpInfo at hc
  split_ifs at hc
  unfold splitFdInfo at h
  split_ifs at h with hcond htok
  · simp only [Option.some.injEq, Prod.mk.injEq] at h
    obtain ⟨hfd, happ⟩ := h
    subst htok
    rcases hcond with ⟨_, h2 | h2⟩ <;> subst h2 <;> simp_all [headRedirOp]
  · have htok2 : tok = "2" := by
      rcases hcond.1 with h1 | h1
      · exact absurd h1 htok
      · exact h1
    simp only [Option.some.injEq, Prod.mk.injEq] at h
    obtain ⟨hfd, happ⟩ := h
    subst htok2
    rcases hcond with ⟨_, h2 | h2⟩ <;> subst h2 <;> simp_all [headRedirOp]

set_option maxHeartbeats 4000000 in
theorem opAtSpec_zero_none (tok : String) (rest : List String)
    (h : opAtSpec (tok :: rest) 0 = none) :
    headRedirOp tok rest = none := by
  unfold opAtSpec at h
  simp only [List.drop_zero] at h
  unfold headRedirOp
  split_ifs with g1 g2 g3 g4 g5 g6 g7 g8 g9 g10
  · exact absurd h (by subst g1; exact fun hx => Option.noConfusion hx)
  · exact absurd h (by subst g2; exact fun hx => Option.noConfusion hx)
  · exact absurd h (by subst g3; exact fun hx => Option.noConfusion hx)
  · exact absurd h (by subst g4; exact fun hx => Option.noConfusion hx)
  · exact absurd h (by subst g5; exact fun hx => Option.noConfusion hx)
  · exact absurd h (by subst g6; exact fun hx => Option.noConfusion hx)
  · obtain ⟨ha, hb⟩ := g7
    subst ha
    rw [hb] at h
    exact absurd h (fun hx => Option.noConfusion hx)
  · obtain ⟨ha, hb⟩ := g8
    subst ha
    rw [hb] at h
    exact absurd h (fun hx => Option.noConfusion hx)
  · obtain ⟨ha, hb⟩ := g9
    subst ha
    rw [hb] at h
    exact absurd h (fun hx => Option.noConfusion hx)
  · obtain ⟨ha, hb⟩ := g10
    subst ha
    rw [hb] at h
    exact absurd h (fun hx => Option.noConfusion hx)
  · rfl

theorem opAtSpec_cons_succ (tok : String) (rest : List String) (j : Nat) :
    opAtSpec (tok :: rest) (j + 1) = opAtSpec rest j := by
  unfold opAtSpec
  rw [List.drop_succ_cons]

theorem redirScan_first_match (tokens : List String) :
    ∀ (i fd : Nat) (app : Bool) (off : Nat),
      opAtSpec tokens i = some (fd, app, off) →
      (∀ j, j < i → opAtSpec tokens j = none) →
      redirScan tokens = some (i, fd, app, tokens[i + off]?) := by
  induction tokens with
  | nil => intro i fd app off hm _; simp [opAtSpec] at hm
  | cons tok rest ih =>
    intro i fd app off hm hmin
    cases i with
    | zero =>
      unfold opAtSpec at hm
      simp only [List.drop_zero] at hm
      cases hc : combinedOpInfo tok with
      | some p =>
        obtain ⟨p1, p2⟩ := p
        simp only [hc, Option.some.injEq, Prod.mk.injEq] at hm
        obtain ⟨h1, h2, h3⟩ := hm
        rw [redirScan]
        simp only [combinedOp_headRedirOp tok rest p1 p2 hc]
        subst h1
        subst h2
        rw [← h3, List.getElem?_cons_succ]
      | none =>
        simp only [hc] at hm
        cases hn : rest[0]? with
        | none =>
          simp only [hn] at hm
          exact Option.noConfusion hm
        | some next =>
          simp only [hn] at hm
          cases hsf : splitFdInfo tok next with
          | none =>
            simp only [hsf, Option.map_none'] at hm
            exact Option.noConfusion hm
          | some q =>
            obtain ⟨q1, q2⟩ := q
            simp only [hsf, Option.map_some', Option.some.injEq, Prod.mk.injEq] at hm
            obtain ⟨h1, h2, h3⟩ := hm
            rw [redirScan]
            simp only [splitFd_headRedirOp tok next rest q1 q2 hc hn hsf]
            subst h1
            subst h2
            rw [← h3]
            rw [show ((tok :: rest)[0 + 2]? : Option String) = rest[1]? from by
              rw [show (0 : Nat) + 2 = 1 + 1 from rfl, List.getElem?_cons_succ]]
    | succ j =>
      have h0 : opAtSpec (tok :: rest) 0 = none := hmin 0 (Nat.succ_pos j)
      have hh : headRedirOp tok rest = none := opAtSpec_zero_none tok rest h0
      have hm2 : opAtSpec rest j = some (fd, app, off) := by
        rwa [opAtSpec_cons_succ] at hm
      have hmin2 : ∀ j2, j2 < j → opAtSpec rest j2 = none := by
        intro j2 hj
        have := hmin (j2 + 1) (by omega)
        rwa [opAtSpec_cons_succ] at this
      rw [redirScan]
      simp only [hh, ih j fd app off hm2 hmin2]
      rw [show j + 1 + off = (j + off) + 1 from by omega, List.getElem?_cons_succ]

/-- Claim C5 (confirmed): the first token position matching a recognized
redirection operator terminates the command tokens — everything strictly
before it becomes the command tokens, the target is the token one past the
operator (two past for the split-fd forms, `none` when absent), fd and
mode are decoded per the operator table, and every token at or after the
operator other than the target is dropped from the result. -/
theorem parseRedirection_first_match (tokens : List String) (i fd : Nat)
    (app : Bool) (off : Nat)
    (hm : opAtSpec tokens i = some (fd, app, off))
    (hmin : ∀ j, j < i → opAtSpec tokens j = none) :
    parseRedirection tokens = ⟨true, tokens.take i, tokens[i + off]?, fd, app⟩ := by
  unfold parseRedirection
  rw [redirScan_first_match tokens i fd app off hm hmin]

/-- Claim C5 witness: `echo hi > f junk` — the trailing token is ignored;
also a split-fd instance `a 2 >> f g`. -/
theorem parseRedirection_first_match_witness :
    parseRedirection ["echo", "hi", ">", "f", "junk"] =
        ⟨true, ["echo", "hi"], some "f", 1, false⟩ ∧
      parseRedirection ["a", "2", ">>", "f", "g"] =
        ⟨true, ["a"], some "f", 2, true⟩ :=
  ⟨parseRedirection_first_match ["echo", "hi", ">", "f", "junk"] 2 1 false 1
      (by decide) (by decide),
    parseRedirection_first_match ["a", "2", ">>", "f", "g"] 1 2 true 2
      (by decide) (by decide)⟩

theorem flushToken_forall (P : List Char → Prop) (cur : List Char) (acc : List (List Char))
    (hc : P cur) (ha : ∀ t ∈ acc, P t) : ∀ t ∈ flushToken cur acc, P t := by
  intro t ht
  unfold flushToken at ht
  by_cases h : cur.length > 0
  · rw [if_pos h] at ht
    rcases List.mem_append.mp ht with h2 | h2
    · exact ha t h2
    · rw [List.mem_singleton.mp h2]
      exact hc
  · rw [if_neg h] at ht
    exact ha t ht

theorem mem_of_mem_dropWhile {p : Char → Bool} {l : List Char} {x : Char}
    (h : x ∈ l.dropWhile p) : x ∈ l := by
  induction l with
  | nil => simp [List.dropWhile] at h
  | cons a l ih =>
    rw [List.dropWhile] at h
    cases hpa : p a with
    | true =>
      rw [hpa] at h
      exact List.mem_cons_of_mem a (ih h)
    | false =>
      rw [hpa] at h
      exact h

theorem tokLoop_inv_A :
    ∀ (fuel : Nat) (input : List Char) (inS inD : Bool) (cur : List Char) (acc : List (List Char)),
      (∀ c ∈ input, c ≠ backslashChar ∧ c ≠ squoteChar) → inS = false →
      (∀ c ∈ cur, c ≠ squoteChar ∧ c ≠ dquoteChar) →
      (∀ t ∈ acc, ∀ c ∈ t, c ≠ squoteChar ∧ c ≠ dquoteChar) →
      ∀ t ∈ tokLoop fuel input inS inD cur acc, ∀ c ∈ t, c ≠ squoteChar ∧ c ≠ dquoteChar := by
  intro fuel input inS inD cur acc
  induction fuel, input, inS, inD, cur, acc using tokLoop.induct
  case case1 =>
    intro _ _ h3 h4
    rw [tokLoop.eq_1]
    exact flushToken_forall _ _ _ h3 h4
  case case2 =>
    intro _ _ h3 h4
    rw [tokLoop.eq_2]
    exact flushToken_forall _ _ _ h3 h4
  case case3 => intro h1 _ _ _; exfalso; simp_all
  case case4 => intro h1 _ _ _; exfalso; simp_all
  case case5 => intro h1 _ _ _; exfalso; simp_all
  case case6 => intro h1 _ _ _; exfalso; simp_all
  case case7 => intro h1 _ _ _; exfalso; simp_all
  case case8 => intro h1 _ _ _; exfalso; simp_all
  case case9 => intro h1 _ _ _; exfalso; simp_all
  case case10 => intro h1 _ _ _; exfalso; simp_all
  case case11 => intro h1 _ _ _; exfalso; simp_all
  case case12 => intro h1 _ _ _; exfalso; simp_all
  case case13 => intro h1 _ _ _; exfalso; simp_all
  case case14 => intro h1 _ _ _; exfalso; simp_all
  case case15 =>
    rename_i fuel c inS cur acc hpos hn1 hn2 hn3 ih
    intro h1 h2 h3 h4
    rw [tokLoop.eq_3, if_neg hn1, if_neg hn2, if_neg hn3, if_pos hpos, if_pos rfl]
    exact ih (by simp) h2 h3 h4
  case case16 =>
    rename_i fuel c inS cur acc hpos rest2 hn1 hn2 hn3 ih
    intro h1 h2 h3 h4
    rw [tokLoop.eq_4, if_neg hn1, if_neg hn2, if_neg hn3, if_pos hpos, if_pos rfl, if_pos rfl]
    exact ih (fun x hx => h1 x (List.mem_cons_of_mem _ (List.mem_cons_of_mem _ hx))) h2 h3 h4
  case case17 =>
    rename_i fuel c inS cur acc hpos c2 rest2 hne2 hn1 hn2 hn3 ih
    intro h1 h2 h3 h4
    rw [tokLoop.eq_4, if_neg hn1, if_neg hn2, if_neg hn3, if_pos hpos, if_pos rfl, if_neg hne2]
    exact ih (fun x hx => h1 x (List.mem_cons_of_mem _ hx)) h2 h3 h4
  case case18 =>
    rename_i fuel c inS inD cur acc hn1 hn2 hn3 hpos hnD ih
    intro h1 h2 h3 h4
    rw [tokLoop.eq_3, if_neg hn1, if_neg hn2, if_neg hn3, if_pos hpos, if_neg hnD]
    exact ih (by simp) h2 h3 h4
  case case19 =>
    rename_i fuel c inS inD cur acc hn1 hn2 hn3 hpos hnD rest2 ih
    intro h1 h2 h3 h4
    rw [tokLoop.eq_4, if_neg hn1, if_neg hn2, if_neg hn3, if_pos hpos, if_neg hnD, if_pos rfl]
    exact ih (fun x hx => h1 x (List.mem_cons_of_mem _ (List.mem_cons_of_mem _ hx))) h2 h3 h4
  case case20 =>
    rename_i fuel c inS inD cur acc hn1 hn2 hn3 hpos hnD c2 rest2 hne2 ih
    intro h1 h2 h3 h4
    rw [tokLoop.eq_4, if_neg hn1, if_neg hn2, if_neg hn3, if_pos hpos, if_neg hnD, if_neg hne2]
    exact ih (fun x hx => h1 x (List.mem_cons_of_mem _ hx)) h2 h3 h4
  case case21 =>
    rename_i fuel c rest inS inD cur acc hn1 hn2 hn3 hn4 hor ih
    intro h1 h2 h3 h4
    have hc2 : ∀ x ∈ cur ++ [c], x ≠ squoteChar ∧ x ≠ dquoteChar := by
      intro x hx
      rcases List.mem_append.mp hx with hx | hx
      · exact h3 x hx
      · rw [List.mem_singleton.mp hx]
        refine ⟨(h1 c (by simp)).2, fun hdq => hn4 ⟨hdq, h2⟩⟩
    cases rest with
    | nil =>
      rw [tokLoop.eq_3, if_neg hn1, if_neg hn2, if_neg hn3, if_neg hn4, if_pos hor]
      exact ih (by simp) h2 hc2 h4
    | cons c2 rest2 =>
      rw [tokLoop.eq_4, if_neg hn1, if_neg hn2, if_neg hn3, if_neg hn4, if_pos hor]
      exact ih (fun x hx => h1 x (List.mem_cons_of_mem _ hx)) h2 hc2 h4
  case case22 =>
    rename_i fuel c rest inS inD cur acc hn1 hn2 hn3 hn4 hnor hws ih
    intro h1 h2 h3 h4
    cases rest with
    | nil =>
      rw [tokLoop.eq_3, if_neg hn1, if_neg hn2, if_neg hn3, if_neg hn4, if_neg hnor, if_pos hws]
      exact ih (fun x hx => h1 x (List.mem_cons_of_mem _ (mem_of_mem_dropWhile hx)))
        h2 (by simp) (flushToken_forall _ _ _ h3 h4)
    | cons c2 rest2 =>
      rw [tokLoop.eq_4, if_neg hn1, if_neg hn2, if_neg hn3, if_neg hn4, if_neg hnor, if_pos hws]
      exact ih (fun x hx => h1 x (List.mem_cons_of_mem _ (mem_of_mem_dropWhile hx)))
        h2 (by simp) (flushToken_forall _ _ _ h3 h4)
  case case23 =>
    rename_i fuel c rest inS inD cur acc hn1 hn2 hn3 hn4 hnor hnws ih
    intro h1 h2 h3 h4
    have hc2 : ∀ x ∈ cur ++ [c], x ≠ squoteChar ∧ x ≠ dquoteChar := by
      intro x hx
      rcases List.mem_append.mp hx with hx | hx
      · exact h3 x hx
      · rw [List.mem_singleton.mp hx]
        refine ⟨(h1 c (by simp)).2, fun hdq => hn4 ⟨hdq, h2⟩⟩
    cases rest with
    | nil =>
      rw [tokLoop.eq_3, if_neg hn1, if_neg hn2, if_neg hn3, if_neg hn4, if_neg hnor, if_neg hnws]
      exact ih (by simp) h2 hc2 h4
    | cons c2 rest2 =>
      rw [tokLoop.eq_4, if_neg hn1, if_neg hn2, if_neg hn3, if_neg hn4, if_neg hnor, if_neg hnws]
      exact ih (fun x hx => h1 x (List.mem_cons_of_mem _ hx)) h2 hc2 h4

theorem tokLoop_inv_B :
    ∀ (fuel : Nat) (input : List Char) (inS inD : Bool) (cur : List Char) (acc : List (List Char)),
      (∀ c ∈ input, c ≠ backslashChar ∧ c ≠ dquoteChar) → inD = false →
      (∀ c ∈ cur, c ≠ squoteChar ∧ c ≠ dquoteChar) →
      (∀ t ∈ acc, ∀ c ∈ t, c ≠ squoteChar ∧ c ≠ dquoteChar) →
      ∀ t ∈ tokLoop fuel input inS inD cur acc, ∀ c ∈ t, c ≠ squoteChar ∧ c ≠ dquoteChar := by
  intro fuel input inS inD cur acc
  induction fuel, input, inS, inD, cur, acc using tokLoop.induct
  case case1 =>
    intro _ _ h3 h4
    rw [tokLoop.eq_1]
    exact flushToken_forall _ _ _ h3 h4
  case case2 =>
    intro _ _ h3 h4
    rw [tokLoop.eq_2]
    exact flushToken_forall _ _ _ h3 h4
  case case3 => intro h1 _ _ _; exfalso; simp_all
  case case4 => intro h1 _ _ _; exfalso; simp_all
  case case5 => intro h1 _ _ _; exfalso; simp_all
  case case6 => intro h1 _ _ _; exfalso; simp_all
  case case7 => intro h1 _ _ _; exfalso; simp_all
  case case8 => intro h1 _ _ _; exfalso; simp_all
  case case9 =>
    rename_i fuel c inD cur acc hpos hn1 hn2 ih
    intro h1 h2 h3 h4
    rw [tokLoop.eq_3, if_neg hn1, if_neg hn2, if_pos hpos, if_pos rfl]
    exact ih (by simp) h2 h3 h4
  case case10 =>
    rename_i fuel c inD cur acc hpos rest2 hn1 hn2 ih
    intro h1 h2 h3 h4
    rw [tokLoop.eq_4, if_neg hn1, if_neg hn2, if_pos hpos, if_pos rfl, if_pos rfl]
    exact ih (fun x hx => h1 x (List.mem_cons_of_mem _ (List.mem_cons_of_mem _ hx))) h2 h3 h4
  case case11 =>
    rename_i fuel c inD cur acc hpos c2 rest2 hne2 hn1 hn2 ih
    intro h1 h2 h3 h4
    rw [tokLoop.eq_4, if_neg hn1, if_neg hn2, if_pos hpos, if_pos rfl, if_neg hne2]
    exact ih (fun x hx => h1 x (List.mem_cons_of_mem _ hx)) h2 h3 h4
  case case12 =>
    rename_i fuel c inS inD cur acc hn1 hn2 hpos hnS ih
    intro h1 h2 h3 h4
    rw [tokLoop.eq_3, if_neg hn1, if_neg hn2, if_pos hpos, if_neg hnS]
    exact ih (by simp) h2 h3 h4
  case case13 =>
    rename_i fuel c inS inD cur acc hn1 hn2 hpos hnS rest2 ih
    intro h1 h2 h3 h4
    rw [tokLoop.eq_4, if_neg hn1, if_neg hn2, if_pos hpos, if_neg hnS, if_pos rfl]
    exact ih (fun x hx => h1 x (List.mem_cons_of_mem _ (List.mem_cons_of_mem _ hx))) h2 h3 h4
  case case14 =>
    rename_i fuel c inS inD cur acc hn1 hn2 hpos hnS c2 rest2 hne2 ih
    intro h1 h2 h3 h4
    rw [tokLoop.eq_4, if_neg hn1, if_neg hn2, if_pos hpos, if_neg hnS, if_neg hne2]
    exact ih (fun x hx => h1 x (List.mem_cons_of_mem _ hx)) h2 h3 h4
  case case15 => intro h1 _ _ _; exfalso; simp_all
  case case16 => intro h1 _ _ _; exfalso; simp_all
  case case17 => intro h1 _ _ _; exfalso; simp_all
  case case18 => intro h1 _ _ _; exfalso; simp_all
  case case19 => intro h1 _ _ _; exfalso; simp_all
  case case20 => intro h1 _ _ _; exfalso; simp_all
  case case21 =>
    rename_i fuel c rest inS inD cur acc hn1 hn2 hn3 hn4 hor ih
    intro h1 h2 h3 h4
    have hc2 : ∀ x ∈ cur ++ [c], x ≠ squoteChar ∧ x ≠ dquoteChar := by
      intro x hx
      rcases List.mem_append.mp hx with hx | hx
      · exact h3 x hx
      · rw [List.mem_singleton.mp hx]
        refine ⟨fun hsq => hn3 ⟨hsq, h2⟩, (h1 c (by simp)).2⟩
    cases rest with
    | nil =>
      rw [tokLoop.eq_3, if_neg hn1, if_neg hn2, if_neg hn3, if_neg hn4, if_pos hor]
      exact ih (by simp) h2 hc2 h4
    | cons c2 rest2 =>
      rw [tokLoop.eq_4, if_neg hn1, if_neg hn2, if_neg hn3, if_neg hn4, if_pos hor]
      exact ih (fun x hx => h1 x (List.mem_cons_of_mem _ hx)) h2 hc2 h4
  case case22 =>
    rename_i fuel c rest inS inD cur acc hn1 hn2 hn3 hn4 hnor hws ih
    intro h1 h2 h3 h4
    cases rest with
    | nil =>
      rw [tokLoop.eq_3, if_neg hn1, if_neg hn2, if_neg hn3, if_neg hn4, if_neg hnor, if_pos hws]
      exact ih (fun x hx => h1 x (List.mem_cons_of_mem _ (mem_of_mem_dropWhile hx)))
        h2 (by simp) (flushToken_forall _ _ _ h3 h4)
    | cons c2 rest2 =>
      rw [tokLoop.eq_4, if_neg hn1, if_neg hn2, if_neg hn3, if_neg hn4, if_neg hnor, if_pos hws]
      exact ih (fun x hx => h1 x (List.mem_cons_of_mem _ (mem_of_mem_dropWhile hx)))
        h2 (by simp) (flushToken_forall _ _ _ h3 h4)
  case case23 =>
    rename_i fuel c rest inS inD cur acc hn1 hn2 hn3 hn4 hnor hnws ih
    intro h1 h2 h3 h4
    have hc2 : ∀ x ∈ cur ++ [c], x ≠ squoteChar ∧ x ≠ dquoteChar := by
      intro x hx
      rcases List.mem_append.mp hx with hx | hx
      · exact h3 x hx
      · rw [List.mem_singleton.mp hx]
        refine ⟨fun hsq => hn3 ⟨hsq, h2⟩, (h1 c (by simp)).2⟩
    cases rest with
    | nil =>
      rw [tokLoop.eq_3, if_neg hn1, if_neg hn2, if_neg hn3, if_neg hn4, if_neg hnor, if_neg hnws]
      exact ih (by simp) h2 hc2 h4
    | cons c2 rest2 =>
      rw [tokLoop.eq_4, if_neg hn1, if_neg hn2, if_neg hn3, if_neg hn4, if_neg hnor, if_neg hnws]
      exact ih (fun x hx => h1 x (List.mem_cons_of_mem _ hx)) h2 hc2 h4

theorem tokLoop_inv_C :
    ∀ (fuel : Nat) (input : List Char) (inS inD : Bool) (cur : List Char) (acc : List (List Char)),
      (∀ c ∈ input, c ≠ backslashChar ∧ c ≠ squoteChar ∧ c ≠ dquoteChar) →
      inS = false → inD = false →
      (∀ c ∈ cur, c ≠ tabChar) →
      (∀ t ∈ acc, ∀ c ∈ t, c ≠ tabChar) →
      ∀ t ∈ tokLoop fuel input inS inD cur acc, ∀ c ∈ t, c ≠ tabChar := by
  intro fuel input inS inD cur acc
  induction fuel, input, inS, inD, cur, acc using tokLoop.induct
  case case1 =>
    intro _ _ _ h3 h4
    rw [tokLoop.eq_1]
    exact flushToken_forall _ _ _ h3 h4
  case case2 =>
    intro _ _ _ h3 h4
    rw [tokLoop.eq_2]
    exact flushToken_forall _ _ _ h3 h4
  case case3 => intro h1 _ _ _ _; exfalso; simp_all
  case case4 => intro h1 _ _ _ _; exfalso; simp_all
  case case5 => intro h1 _ _ _ _; exfalso; simp_all
  case case6 => intro h1 _ _ _ _; exfalso; simp_all
  case case7 => intro h1 _ _ _ _; exfalso; simp_all
  case case8 => intro h1 _ _ _ _; exfalso; simp_all
  case case9 => intro h1 _ _ _ _; exfalso; simp_all
  case case10 => intro h1 _ _ _ _; exfalso; simp_all
  case case11 => intro h1 _ _ _ _; exfalso; simp_all
  case case12 => intro h1 _ _ _ _; exfalso; simp_all
  case case13 => intro h1 _ _ _ _; exfalso; simp_all
  case case14 => intro h1 _ _ _ _; exfalso; simp_all
  case case15 => intro h1 _ _ _ _; exfalso; simp_all
  case case16 => intro h1 _ _ _ _; exfalso; simp_all
  case case17 => intro h1 _ _ _ _; exfalso; simp_all
  case case18 => intro h1 _ _ _ _; exfalso; simp_all
  case case19 => intro h1 _ _ _ _; exfalso; simp_all
  case case20 => intro h1 _ _ _ _; exfalso; simp_all
  case case21 => intro _ h2 h2b _ _; exfalso; simp_all
  case case22 =>
    rename_i fuel c rest inS inD cur acc hn1 hn2 hn3 hn4 hnor hws ih
    intro h1 h2 h2b h3 h4
    cases rest with
    | nil =>
      rw [tokLoop.eq_3, if_neg hn1, if_neg hn2, if_neg hn3, if_neg hn4, if_neg hnor, if_pos hws]
      exact ih (fun x hx => h1 x (List.mem_cons_of_mem _ (mem_of_mem_dropWhile hx)))
        h2 h2b (by simp) (flushToken_forall _ _ _ h3 h4)
    | cons c2 rest2 =>
      rw [tokLoop.eq_4, if_neg hn1, if_neg hn2, if_neg hn3, if_neg hn4, if_neg hnor, if_pos hws]
      exact ih (fun x hx => h1 x (List.mem_cons_of_mem _ (mem_of_mem_dropWhile hx)))
        h2 h2b (by simp) (flushToken_forall _ _ _ h3 h4)
  case case23 =>
    rename_i fuel c rest inS inD cur acc hn1 hn2 hn3 hn4 hnor hnws ih
    intro h1 h2 h2b h3 h4
    have hc2 : ∀ x ∈ cur ++ [c], x ≠ tabChar := by
      intro x hx
      rcases List.mem_append.mp hx with hx | hx
      · exact h3 x hx
      · rw [List.mem_singleton.mp hx]
        exact fun ht => hnws (Or.inr ht)
    cases rest with
    | nil =>
      rw [tokLoop.eq_3, if_neg hn1, if_neg hn2, if_neg hn3, if_neg hn4, if_neg hnor, if_neg hnws]
      exact ih (by simp) h2 h2b hc2 h4
    | cons c2 rest2 =>
      rw [tokLoop.eq_4, if_neg hn1, if_neg hn2, if_neg hn3, if_neg hn4, if_neg hnor, if_neg hnws]
      exact ih (fun x hx => h1 x (List.mem_cons_of_mem _ hx)) h2 h2b hc2 h4

/-- Claim C2 (amended): on a line where every quote character is
unescaped — no backslash, and quote characters of at most one kind — no
emitted token contains a quote character; and on a line with no backslash
and no quote characters at all, no token contains a tab (an unquoted,
unescaped tab only separates tokens).  Tokens can contain quotes and tabs
that were backslash-escaped or enclosed in the other kind of quotes (see
the counterexample). -/
theorem parseCommandLine_token_chars (L : List Char)
    (hb : ∀ c ∈ L, c ≠ backslashChar) :
    (((∀ c ∈ L, c ≠ squoteChar) ∨ (∀ c ∈ L, c ≠ dquoteChar)) →
      ∀ t ∈ parseCommandLine L, ∀ c ∈ t, c ≠ squoteChar ∧ c ≠ dquoteChar) ∧
    ((∀ c ∈ L, c ≠ squoteChar ∧ c ≠ dquoteChar) →
      ∀ t ∈ parseCommandLine L, ∀ c ∈ t, c ≠ tabChar) := by
  constructor
  · intro hone
    rcases hone with hsq | hdq
    · exact tokLoop_inv_A L.length L false false [] []
        (fun c hc => ⟨hb c hc, hsq c hc⟩) rfl (by simp) (by simp)
    · exact tokLoop_inv_B L.length L false false [] []
        (fun c hc => ⟨hb c hc, hdq c hc⟩) rfl (by simp) (by simp)
  · intro hq
    exact tokLoop_inv_C L.length L false false [] []
      (fun c hc => ⟨hb c hc, (hq c hc).1, (hq c hc).2⟩) rfl rfl (by simp) (by simp)


/-- Claim C2 counterexample: a tab enclosed in single quotes is payload —
the emitted token of the line consisting of a single-quoted
`a<TAB>b` contains a tab character. -/
theorem parseCommandLine_quoted_tab_in_token :
    parseCommandLine [squoteChar, 'a', tabChar, 'b', squoteChar] = [['a', tabChar, 'b']] ∧
      tabChar ∈ [('a' : Char), tabChar, 'b'] := by
  constructor
  · decide
  · decide

/-- Claim C2 witness: a single-quoted word with a space; tokens of a
backslash-free line with only one kind of quote carry no quote
characters. -/
theorem parseCommandLine_token_chars_witness :
    parseCommandLine [squoteChar, 'a', spaceChar, 'b', squoteChar] =
        [['a', spaceChar, 'b']] ∧
      (('a' : Char) ≠ squoteChar ∧ ('a' : Char) ≠ dquoteChar) :=
  ⟨by decide,
    (parseCommandLine_token_chars [squoteChar, 'a', spaceChar, 'b', squoteChar]
        (by decide)).1 (Or.inr (by decide)) ['a', spaceChar, 'b'] (by decide) 'a'
      (by decide)⟩

end NuShell
